import Mathlib

/-!
Verification development for the Research Paper Critique Assistant.

The available sources of the repository are the Next.js frontend (the page
component with `handleFileUpload`, the API client with `uploadPaper` and the
`PaperAnalysis` interface, and the `PaperAnalysis` display component) together
with the project documentation.  The backend core (Segmenter, the three
Mergers and the Analysis Orchestrator) is not among the available sources, so
those components are modelled from the specification (spec.md §3–§7); every
such definition is marked `Modelled from the spec:` in its doc comment.
The frontend functions are embedded directly from the TypeScript sources.
-/

namespace RPCA

/-- Modelled from the spec: a bounded, offset-tracked slice of document text
(§3 Segment); the backend Segmenter is not among the available sources. -/
structure Segment where
  index : Nat
  text : String
  start_offset : Nat
  end_offset : Nat
deriving Repr, DecidableEq

/-- Modelled from the spec: sentence or paragraph boundary characters
(§4.1 splits at the nearest sentence or paragraph boundary). -/
def isBoundaryChar (c : Char) : Bool := c = '.' || c = '\n'

/-- Modelled from the spec: scan cut positions p, p-1, ..., p-k+1 for the
nearest one sitting right after a boundary character (§4.1 lookback search). -/
def searchBack (cs : List Char) : Nat → Nat → Option Nat
  | _, 0 => none
  | p, k + 1 =>
    if ((cs.get? (p - 1)).map isBoundaryChar).getD false then some p
    else searchBack cs (p - 1) k

/-- Modelled from the spec: the lowest admissible cut position for the segment
starting at pos: inside the lookback window and strictly past pos + overlap,
so that the next start advances (§4.1 guarantees termination). -/
def cutLo (pos budget overlap lookback : Nat) : Nat :=
  max (pos + budget - lookback) (pos + overlap + 1)

/-- Modelled from the spec: the cut for the segment starting at pos: the
nearest boundary at or before the budget offset within the lookback window,
falling back to a hard cut at the exact budget offset (§4.1). -/
def findCut (cs : List Char) (pos budget overlap lookback : Nat) : Nat :=
  match searchBack cs (pos + budget)
      (pos + budget + 1 - cutLo pos budget overlap lookback) with
  | some q => q
  | none => pos + budget

/-- The characters of a text between offsets a (inclusive) and b (exclusive). -/
def slice (cs : List Char) (a b : Nat) : List Char := (cs.drop a).take (b - a)

/-- Modelled from the spec: the Segmenter loop (§4.1).  fuel bounds the number
of emitted segments; `segment` supplies the text length as fuel, which is
always sufficient because every step advances the position by at least one, so
the fuel-exhausted branch is unreachable from `segment`. -/
def segmentLoop (cs : List Char) (budget overlap lookback : Nat) :
    Nat → Nat → Nat → List Segment
  | 0, _, _ => []
  | fuel + 1, pos, idx =>
    if cs.length ≤ pos + budget then
      [⟨idx, String.mk (slice cs pos cs.length), pos, cs.length⟩]
    else
      let cut := findCut cs pos budget overlap lookback
      ⟨idx, String.mk (slice cs pos cut), pos, cut⟩ ::
        segmentLoop cs budget overlap lookback fuel (cut - overlap) (idx + 1)

/-- Modelled from the spec: Segmenter error kinds (§4.1, §7 InvalidInput). -/
inductive SegError
  | invalidInput
deriving Repr, DecidableEq

/-- Modelled from the spec: `segment(text, budget, overlap)` (§4.1): fails
with InvalidInput when the text is empty or budget ≤ overlap, otherwise
returns the ordered bounded segments, searching for split boundaries within a
200-character lookback window. -/
def segment (text : String) (budget overlap : Nat) :
    Except SegError (List Segment) :=
  if text.data.length = 0 ∨ budget ≤ overlap then .error .invalidInput
  else .ok (segmentLoop text.data budget overlap 200 text.data.length 0 0)

theorem searchBack_bounds (cs : List Char) :
    ∀ k p q, searchBack cs p k = some q → q ≤ p ∧ p < q + k := by
  intro k
  induction k with
  | zero => intro p q h; simp [searchBack] at h
  | succ k ih =>
    intro p q h
    rw [searchBack] at h
    split at h
    · cases h; omega
    · have := ih (p - 1) q h
      omega

theorem findCut_bounds (cs : List Char) (pos budget overlap lookback : Nat)
    (h : overlap < budget) :
    pos + overlap < findCut cs pos budget overlap lookback ∧
      findCut cs pos budget overlap lookback ≤ pos + budget := by
  have h1 : pos + overlap + 1 ≤ cutLo pos budget overlap lookback :=
    Nat.le_max_right _ _
  have h2 : cutLo pos budget overlap lookback ≤ pos + budget + 1 := by
    unfold cutLo
    refine Nat.max_le.mpr ⟨?_, ?_⟩ <;> omega
  unfold findCut
  split
  next q heq =>
    have hb := searchBack_bounds cs _ _ _ heq
    omega
  next => omega

theorem segmentLoop_covers (cs : List Char) (budget overlap lookback : Nat)
    (hbo : overlap < budget) :
    ∀ fuel pos idx i, cs.length - pos ≤ fuel → pos ≤ i → i < cs.length →
      ∃ s ∈ segmentLoop cs budget overlap lookback fuel pos idx,
        s.start_offset ≤ i ∧ i < s.end_offset := by
  intro fuel
  induction fuel with
  | zero => intro pos idx i h1 h2 h3; exfalso; omega
  | succ fuel ih =>
    intro pos idx i h1 h2 h3
    rw [segmentLoop]
    split
    · exact ⟨_, List.mem_singleton_self _, h2, h3⟩
    next hgt =>
      obtain ⟨hb1, hb2⟩ := findCut_bounds cs pos budget overlap lookback hbo
      by_cases hic : i < findCut cs pos budget overlap lookback
      · exact ⟨_, List.mem_cons_self _ _, h2, hic⟩
      · obtain ⟨s, hs, hs1, hs2⟩ :=
          ih (findCut cs pos budget overlap lookback - overlap) (idx + 1) i
            (by omega) (by omega) h3
        exact ⟨s, List.mem_cons_of_mem _ hs, hs1, hs2⟩

/-- C4: for every text and every valid (budget, overlap), the segments
produced by `segment` jointly cover [0, len(text)) with no gap: every offset
below the text length lies inside the
[start_offset, end_offset) interval of some segment. -/
theorem segment_coverage (text : String) (budget overlap : Nat)
    (segs : List Segment) (h : segment text budget overlap = Except.ok segs) :
    ∀ i, i < text.length → ∃ s ∈ segs, s.start_offset ≤ i ∧ i < s.end_offset := by
  intro i hi
  unfold segment at h
  split at h
  · exact absurd h (by simp)
  next hvalid =>
    push_neg at hvalid
    obtain ⟨hne, hov⟩ := hvalid
    cases h
    exact segmentLoop_covers text.data budget overlap 200 (by omega)
      text.data.length 0 0 i (by omega) (Nat.zero_le i) hi

/-- Witness for C4 at the §8 total-failure scenario text "AAAA" with budget 2
and overlap 0, checking coverage of offset 3. -/
theorem segment_coverage_witness :
    ∃ s ∈ [(⟨0, "AA", 0, 2⟩ : Segment), ⟨1, "AA", 2, 4⟩],
      s.start_offset ≤ 3 ∧ 3 < s.end_offset :=
  segment_coverage "AAAA" 2 0 [⟨0, "AA", 0, 2⟩, ⟨1, "AA", 2, 4⟩] rfl 3
    (by decide)

/-- C3: the Segmenter is deterministic: identical (text, budget, overlap)
arguments always yield an identical segment sequence. -/
theorem segment_deterministic (t₁ t₂ : String) (b₁ b₂ v₁ v₂ : Nat)
    (ht : t₁ = t₂) (hb : b₁ = b₂) (hv : v₁ = v₂) :
    segment t₁ b₁ v₁ = segment t₂ b₂ v₂ := by
  subst ht; subst hb; subst hv; rfl

/-- Witness for C3 at a concrete input. -/
theorem segment_deterministic_witness :
    segment "abc." 3 1 = segment "abc." 3 1 :=
  segment_deterministic "abc." "abc." 3 3 1 1 rfl rfl rfl

/-- Lowercase, whitespace-split tokenizer over a character list; cur collects
the characters of the current token in reverse. -/
def tokensAux (cur : List Char) : List Char → List String
  | [] => if cur.isEmpty then [] else [String.mk cur.reverse]
  | c :: rest =>
    if c = ' ' then
      if cur.isEmpty then tokensAux [] rest
      else String.mk cur.reverse :: tokensAux [] rest
    else tokensAux (c.toLower :: cur) rest

/-- Lowercased, whitespace-separated tokens of a string; the basis of the
token-overlap similarity (§4.4). -/
def tokens (s : String) : List String := tokensAux [] s.data

/-- Modelled from the spec: token-overlap similarity at threshold 0.8 (§4.4):
the number of shared distinct tokens is at least 4/5 of the larger
distinct-token count. -/
def similar (a b : String) : Bool :=
  let ta := (tokens a).dedup
  let tb := (tokens b).dedup
  let inter := (ta.filter (fun t => tb.contains t)).length
  decide (4 * max ta.length tb.length ≤ 5 * inter)

/-- Modelled from the spec: greedy near-duplicate removal (§4.4): keep the
first occurrence, drop later items similar to any already-kept one; kept holds
the already-kept items in reverse order. -/
def dedupSimilarAux (kept : List String) : List String → List String
  | [] => kept.reverse
  | q :: rest =>
    if kept.any (fun k => similar k q) then dedupSimilarAux kept rest
    else dedupSimilarAux (q :: kept) rest

/-- Modelled from the spec: deduplicate a list by the §4.4 near-duplicate
rule, keeping first occurrences. -/
def dedupSimilar (l : List String) : List String := dedupSimilarAux [] l

/-- Join a list of points with a separator (§4.4 concatenation of the
remaining fragments into one narrative). -/
def joinPoints (sep : String) : List String → String
  | [] => ""
  | [x] => x
  | x :: xs => x ++ sep ++ joinPoints sep xs

/-- Modelled from the spec: keep adding whole points while the running length
stays within the cap (§4.4). -/
def capPointsAux (cap : Nat) : Nat → List String → List String
  | _, [] => []
  | used, x :: xs =>
    if used + x.length ≤ cap then x :: capPointsAux cap (used + x.length) xs
    else []

/-- Modelled from the spec: cap the total critique length at a configurable
ceiling, truncating the lowest-priority (last-added) points first (§4.4); the
first point is always kept so a single fragment is returned unchanged, as the
§8 idempotence property requires. -/
def capPoints (cap : Nat) : List String → List String
  | [] => []
  | x :: xs => x :: capPointsAux cap x.length xs

/-- Modelled from the spec: the Critique Merger (§4.4): drop absent fragments,
deduplicate near-identical ones keeping first occurrences, join the rest in
segment order, and cap the total length. -/
def mergeCritique (cap : Nat) (frags : List (Option String)) : String :=
  joinPoints "\n" (capPoints cap (dedupSimilar (frags.filterMap id)))

/-- Per-segment structured extraction with five optional fields (§3). -/
structure FieldExtraction where
  goal : Option String
  hypothesis : Option String
  methods : Option String
  results : Option String
  conclusion : Option String
deriving Repr, DecidableEq

/-- Does needle begin hay? -/
def charsStartWith : List Char → List Char → Bool
  | _, [] => true
  | [], _ :: _ => false
  | h :: hs, n :: ns => h == n && charsStartWith hs ns

/-- Does hay contain needle as a contiguous sublist? -/
def charsContain (needle : List Char) : List Char → Bool
  | [] => needle.isEmpty
  | c :: rest => charsStartWith (c :: rest) needle || charsContain needle rest

/-- Whitespace characters removed by normalization. -/
def isWs (c : Char) : Bool := c = ' ' || c = '\n' || c = '\t' || c = '\r'

/-- Modelled from the spec: the normalized text used by the §4.3 refinement
heuristic: lowercased and trimmed of surrounding whitespace. -/
def normChars (s : String) : List Char :=
  (((s.data.map Char.toLower).dropWhile isWs).reverse.dropWhile isWs).reverse

/-- Modelled from the spec: the §4.3 refinement heuristic: the normalized
text of the later value contains the normalized text of the earlier value as a
substring. -/
def isRefinementOf (later earlier : String) : Bool :=
  charsContain (normChars earlier) (normChars later)

/-- Modelled from the spec: delimiter between distinct merged field values
(§4.3). -/
def fieldDelim : String := "\n"

/-- Modelled from the spec: one §4.3 merge step: drop earlier kept values the
new value refines (contains after normalization), then append the new value. -/
def mergeFieldStep (kept : List String) (v : String) : List String :=
  (kept.filter (fun u => ! isRefinementOf v u)) ++ [v]

/-- Modelled from the spec: the values kept after processing the present
values of one field in segment order (§4.3). -/
def fieldKept (vals : List String) : List String :=
  vals.foldl mergeFieldStep []

/-- Modelled from the spec: merge the present values of one field (§4.3): absent on
zero values, verbatim on one value, otherwise the kept values joined by the
delimiter, later refinements having replaced the values they contain. -/
def mergeFieldVals (vals : List String) : Option String :=
  match fieldKept vals with
  | [] => none
  | kept => some (joinPoints fieldDelim kept)

/-- Modelled from the spec: the Field Extraction Merger (§4.3), each of the
five fields merged independently. -/
def mergeFields (extrs : List FieldExtraction) : FieldExtraction where
  goal := mergeFieldVals (extrs.filterMap (fun e => e.goal))
  hypothesis := mergeFieldVals (extrs.filterMap (fun e => e.hypothesis))
  methods := mergeFieldVals (extrs.filterMap (fun e => e.methods))
  results := mergeFieldVals (extrs.filterMap (fun e => e.results))
  conclusion := mergeFieldVals (extrs.filterMap (fun e => e.conclusion))

/-- Per-segment reviewer-question record (§3): optional main question, ordered
sub-questions, optional addressed narrative. -/
structure QuestionSet where
  main_question : Option String
  sub_questions : List String
  addressed_questions : Option String
deriving Repr, DecidableEq

/-- Modelled from the spec: the cap on merged sub-questions (§4.5, top 10). -/
def maxSubQuestions : Nat := 10

/-- Modelled from the spec: the Question Merger (§4.5): first present main
question, with fallback to the first non-empty sub-question; concatenated,
deduplicated, capped sub-questions; concatenated deduplicated addressed
narratives. -/
def mergeQuestions (qsets : List (Option QuestionSet)) : QuestionSet :=
  let present := qsets.filterMap id
  let allSubs := (present.map (fun q => q.sub_questions)).flatten
  { main_question :=
      match present.filterMap (fun q => q.main_question) with
      | m :: _ => some m
      | [] => allSubs.find? (fun s => s != "")
    sub_questions := (dedupSimilar allSubs).take maxSubQuestions
    addressed_questions :=
      match dedupSimilar (present.filterMap (fun q => q.addressed_questions)) with
      | [] => none
      | l => some (joinPoints "\n" l) }

/-- Modelled from the spec: the settled per-segment outcomes of the three
capability call groups, in segment order; none marks a failed
segment/capability call (§4.2). -/
structure SegmentOutcomes where
  extraction : List (Option FieldExtraction)
  critique : List (Option String)
  questions : List (Option QuestionSet)

/-- Modelled from the spec: every segment failed for every one of the three
capabilities — zero usable evidence (§4.2). -/
def totalFailure (o : SegmentOutcomes) : Bool :=
  o.extraction.all (fun r => r.isNone) &&
    o.critique.all (fun r => r.isNone) &&
    o.questions.all (fun r => r.isNone)

/-- The run states of the Orchestrator state machine (§4.2). -/
inductive RunState
  | Pending
  | Dispatching
  | Merging
  | Completed
  | Failed
deriving Repr, DecidableEq

/-- Modelled from the spec: the §4.2 state-machine transitions of one analysis
run whose settled outcomes are o: dispatch, then Failed exactly on total
failure, otherwise Merging and Completed. -/
inductive Step (o : SegmentOutcomes) : RunState → RunState → Prop
  | dispatch : Step o .Pending .Dispatching
  | fail : totalFailure o = true → Step o .Dispatching .Failed
  | settle : totalFailure o = false → Step o .Dispatching .Merging
  | complete : Step o .Merging .Completed

/-- The final aggregate exposed across the system boundary (§3, §6): the five
fields, the critique, the reviewer-question record, and an error key populated
only on total failure. -/
structure AnalysisResult where
  goal : Option String
  hypothesis : Option String
  methods : Option String
  results : Option String
  conclusion : Option String
  critique : Option String
  reviewer_questions : Option QuestionSet
  error : Option String
deriving Repr, DecidableEq

/-- Modelled from the spec: the error message surfaced to the caller on total
failure (§7 TotalFailure). -/
def totalFailureMsg : String := "Analysis failed: all segment analyses failed."

/-- Modelled from the spec: the merge-and-assemble phase of the Orchestrator (§4.2,
§6, §7): on total failure only the error key is populated; otherwise the three
mergers produce the fields and the error key is absent. -/
def runAnalysis (critiqueCap : Nat) (o : SegmentOutcomes) : AnalysisResult :=
  if totalFailure o then
    { goal := none, hypothesis := none, methods := none, results := none,
      conclusion := none, critique := none, reviewer_questions := none,
      error := some totalFailureMsg }
  else
    let f := mergeFields (o.extraction.filterMap id)
    { goal := f.goal, hypothesis := f.hypothesis, methods := f.methods,
      results := f.results, conclusion := f.conclusion,
      critique := some (mergeCritique critiqueCap o.critique),
      reviewer_questions := some (mergeQuestions o.questions),
      error := none }

/-- TypeScript type shapes, used to embed the interface declarations of the
repository. -/
inductive TsType
  | string : TsType
  | array : TsType → TsType
  | object : List (String × TsType) → TsType

/-- The PaperAnalysis interface declared at the transport boundary by the
frontend API client (src/unnamed/part_001, api.ts lines 233-242): every key is
optional; the declared value types are listed per key. -/
def apiPaperAnalysisFields : List (String × TsType) :=
  [("goal", .string), ("hypothesis", .string), ("methods", .string),
   ("results", .string), ("conclusion", .string), ("critique", .string),
   ("reviewer_questions", .array .string), ("error", .string)]

/-- The ReviewerQuestions interface declared in the current UI component
(src/frontend/src/app/components/PaperAnalysis.tsx lines 5-9). -/
def reviewerQuestionsFields : List (String × TsType) :=
  [("main_question", .string), ("sub_questions", .array .string),
   ("addressed_questions", .string)]

/-- The analysis prop type declared in the current UI component
(src/frontend/src/app/components/PaperAnalysis.tsx lines 11-21). -/
def componentAnalysisFields : List (String × TsType) :=
  [("goal", .string), ("hypothesis", .string), ("methods", .string),
   ("results", .string), ("conclusion", .string), ("critique", .string),
   ("reviewer_questions", .object reviewerQuestionsFields)]

/-- The runtime value shape the frontend API client declares for the transport
response (api.ts interface PaperAnalysis). -/
structure PaperAnalysis where
  goal : Option String
  hypothesis : Option String
  methods : Option String
  results : Option String
  conclusion : Option String
  critique : Option String
  reviewer_questions : Option (List String)
  error : Option String
deriving Repr, DecidableEq

/-- The outcome of the HTTP POST awaited inside uploadPaper: a resolved
response, an HTTP error response carrying an optional detail string, or a
failure with no response (network error or any other thrown value). -/
inductive TransportOutcome
  | success (data : PaperAnalysis)
  | httpError (detail : Option String)
  | networkFailure
deriving DecidableEq

/-- JavaScript-style fallback a || b for an optional string a, where both a
missing value and the empty string are falsy. -/
def jsOrElse (a : Option String) (b : String) : String :=
  match a with
  | none => b
  | some s => if s = "" then b else s

/-- The fallback error message of the HTTP-error branch of uploadPaper
(api.ts line 269). -/
def uploadFailDetailMsg : String := "Failed to upload and analyze the paper."

/-- The fallback error message of the no-response branch of uploadPaper
(api.ts line 274). -/
def uploadFailRetryMsg : String :=
  "Failed to upload and analyze the paper. Please try again."

/-- uploadPaper of the frontend API client (api.ts lines 251-277): the try
block resolves with the response data; every caught error resolves with a
PaperAnalysis whose only populated key is error, taken from the detail
field of the HTTP response when that is present and non-empty. -/
def uploadPaper : TransportOutcome → PaperAnalysis
  | .success d => d
  | .httpError detail =>
    { goal := none, hypothesis := none, methods := none, results := none,
      conclusion := none, critique := none, reviewer_questions := none,
      error := some (jsOrElse detail uploadFailDetailMsg) }
  | .networkFailure =>
    { goal := none, hypothesis := none, methods := none, results := none,
      conclusion := none, critique := none, reviewer_questions := none,
      error := some uploadFailRetryMsg }

/-- The UI state triple of the page component (page.tsx lines 9-12). -/
structure UIState where
  isLoading : Bool
  analysisResult : Option PaperAnalysis
  error : Option String
deriving Repr, DecidableEq

/-- The settlement of the uploadPaper promise awaited by handleFileUpload:
resolved with a value, or rejected (the catch branch). -/
inductive UploadOutcome
  | resolved (r : PaperAnalysis)
  | rejected
deriving DecidableEq

/-- JavaScript truthiness of an optional string: present and non-empty. -/
def jsTruthy (a : Option String) : Bool :=
  match a with
  | none => false
  | some s => s != ""

/-- The catch-branch message of handleFileUpload (page.tsx line 28). -/
def unexpectedErrorMsg : String :=
  "An unexpected error occurred. Please try again."

/-- handleFileUpload of the page component (page.tsx lines 14-33): every path
writes all three state fields — loading is set true and finally false, error
is cleared and then set only on a truthy result.error or on rejection, and the
analysis result is stored only when the resolved value has no truthy error. -/
def handleFileUpload (s : UIState) (u : UploadOutcome) : UIState :=
  match u with
  | .resolved r =>
    if jsTruthy r.error then
      { isLoading := false, analysisResult := none, error := r.error }
    else
      { isLoading := false, analysisResult := some r, error := none }
  | .rejected =>
    { isLoading := false, analysisResult := none,
      error := some unexpectedErrorMsg }

theorem dedupSimilarAux_eq_of_pairwise :
    ∀ (l kept : List String),
      (∀ k ∈ kept, ∀ q ∈ l, similar k q = false) →
      List.Pairwise (fun a b => similar a b = false) l →
      dedupSimilarAux kept l = kept.reverse ++ l := by
  intro l
  induction l with
  | nil => intro kept _ _; simp [dedupSimilarAux]
  | cons q rest ih =>
    intro kept hk hp
    have hany : kept.any (fun k => similar k q) = false := by
      simp only [List.any_eq_false]
      intro k hkk
      simp [hk k hkk q (List.mem_cons_self _ _)]
    rw [dedupSimilarAux, hany]
    simp only [Bool.false_eq_true, if_false]
    have hrec := ih (q :: kept)
      (by
        intro k hkmem x hx
        rcases List.mem_cons.mp hkmem with hkq | hkk
        · subst hkq
          exact List.rel_of_pairwise_cons hp hx
        · exact hk k hkk x (List.mem_cons_of_mem _ hx))
      hp.of_cons
    rw [hrec, List.reverse_cons, List.append_assoc, List.singleton_append]

theorem dedupSimilarAux_pairwise :
    ∀ (l kept : List String),
      List.Pairwise (fun a b => similar a b = false) kept.reverse →
      List.Pairwise (fun a b => similar a b = false) (dedupSimilarAux kept l) := by
  intro l
  induction l with
  | nil => intro kept h; simpa [dedupSimilarAux] using h
  | cons q rest ih =>
    intro kept h
    rw [dedupSimilarAux]
    cases hany : kept.any (fun k => similar k q) with
    | true => simp only [if_true]; exact ih kept h
    | false =>
      simp only [Bool.false_eq_true, if_false]
      apply ih (q :: kept)
      rw [List.reverse_cons]
      refine List.pairwise_append.mpr ⟨h, List.pairwise_singleton _ _, ?_⟩
      intro a ha b hb
      rw [List.mem_singleton] at hb
      subst hb
      have hall := List.any_eq_false.mp hany a (List.mem_reverse.mp ha)
      simpa using hall

/-- C7 counterexample: with the greedy first-kept deduplication, the earlier
member of a near-identical pair can itself be dropped against an even earlier
kept question while the later member survives: here the second and third
sub-questions are near-identical (similarity ≥ 0.8), yet the merge keeps the
later one, because the earlier one was deduplicated against the first. -/
theorem question_dedup_can_keep_later :
    similar "b c d e f" "c d e f g" = true ∧
      (mergeQuestions
          [some ⟨none, ["a b c d e"], none⟩,
           some ⟨none, ["b c d e f"], none⟩,
           some ⟨none, ["c d e f g"], none⟩]).sub_questions =
        ["a b c d e", "c d e f g"] := by
  exact ⟨rfl, rfl⟩

/-- C7 (amended): the merged sub_questions list of the Question Merger contains at
most one of any two near-identical sub-questions: its entries are pairwise
non-similar under the ≥ 0.8 threshold.  Which member survives is the earlier
occurrence, except when that one is itself dropped as a near-duplicate of an
even earlier kept question (or removed by the cap). -/
theorem question_merger_pairwise_dissimilar (qsets : List (Option QuestionSet)) :
    List.Pairwise (fun a b => similar a b = false)
      (mergeQuestions qsets).sub_questions := by
  have h := dedupSimilarAux_pairwise
    (((qsets.filterMap id).map (fun q => q.sub_questions)).flatten) []
    (by simp)
  exact List.Pairwise.sublist (List.take_sublist _ _) h

/-- C5 counterexample: the Question Merger is not idempotent on every
singleton: when the lone QuestionSet has no main question but a non-empty
sub-question, the §4.5 fallback synthesizes a main question, so the merged
value differs from the input value. -/
theorem question_merger_singleton_not_idempotent :
    mergeQuestions [some ⟨none, ["Why?"], none⟩] ≠
      (⟨none, ["Why?"], none⟩ : QuestionSet) := by
  intro h
  have h2 : (mergeQuestions [some ⟨none, ["Why?"], none⟩]).main_question =
      some "Why?" := rfl
  rw [h] at h2
  exact Option.noConfusion h2

/-- C5 (amended): merging a one-element list returns the element unchanged for
the Field Extraction Merger and the Critique Merger unconditionally; for the
Question Merger it does so provided the main question of the singleton is present
(or all its sub-questions are empty, so the §4.5 fallback finds nothing), its
sub-questions are pairwise non-similar at the 0.8 threshold, and it holds at
most the cap of 10 sub-questions. -/
theorem merger_singleton_idempotence (f : FieldExtraction) (c : String)
    (cap : Nat) (qs : QuestionSet)
    (hmain : qs.main_question ≠ none ∨
      qs.sub_questions.all (fun s => s == "") = true)
    (hsubs : List.Pairwise (fun a b => similar a b = false) qs.sub_questions)
    (hlen : qs.sub_questions.length ≤ maxSubQuestions) :
    mergeFields [f] = f ∧ mergeCritique cap [some c] = c ∧
      mergeQuestions [some qs] = qs := by
  obtain ⟨g, hy, m, r, co⟩ := f
  refine ⟨?_, rfl, ?_⟩
  · cases g <;> cases hy <;> cases m <;> cases r <;> cases co <;> rfl
  · obtain ⟨mq, subs, aq⟩ := qs
    have hsub : (dedupSimilar (subs ++ [])).take maxSubQuestions = subs := by
      rw [List.append_nil]
      rw [show dedupSimilar subs = subs from by
        have := dedupSimilarAux_eq_of_pairwise subs [] (by simp) hsubs
        simpa [dedupSimilar] using this]
      exact List.take_of_length_le hlen
    have hfind : mq = none → (subs ++ []).find? (fun s => s != "") = none := by
      intro hmq
      rcases hmain with hbad | hall
      · exact absurd hmq (by simpa using hbad)
      · rw [List.find?_eq_none]
        intro x hx
        have := List.all_eq_true.mp hall x (by simpa using hx)
        simp only [beq_iff_eq] at this
        simp [this]
    cases mq with
    | some mv =>
      cases aq with
      | some a =>
        have hq : mergeQuestions [some ⟨some mv, subs, some a⟩] =
            ⟨some mv, (dedupSimilar (subs ++ [])).take maxSubQuestions,
              some a⟩ := rfl
        rw [hq, hsub]
      | none =>
        have hq : mergeQuestions [some ⟨some mv, subs, none⟩] =
            ⟨some mv, (dedupSimilar (subs ++ [])).take maxSubQuestions,
              none⟩ := rfl
        rw [hq, hsub]
    | none =>
      cases aq with
      | some a =>
        have hq : mergeQuestions [some ⟨none, subs, some a⟩] =
            ⟨(subs ++ []).find? (fun s => s != ""),
              (dedupSimilar (subs ++ [])).take maxSubQuestions, some a⟩ := rfl
        rw [hq, hsub, hfind rfl]
      | none =>
        have hq : mergeQuestions [some ⟨none, subs, none⟩] =
            ⟨(subs ++ []).find? (fun s => s != ""),
              (dedupSimilar (subs ++ [])).take maxSubQuestions, none⟩ := rfl
        rw [hq, hsub, hfind rfl]

/-- Witness for the amended C5 theorem at concrete inputs discharging the
question-merger side conditions. -/
theorem merger_singleton_idempotence_witness :
    mergeFields [⟨some "g", none, none, none, none⟩] =
        (⟨some "g", none, none, none, none⟩ : FieldExtraction) ∧
      mergeCritique 100 [some "crit"] = "crit" ∧
      mergeQuestions [some ⟨some "Main?", ["S1?"], some "addr"⟩] =
        (⟨some "Main?", ["S1?"], some "addr"⟩ : QuestionSet) :=
  merger_singleton_idempotence ⟨some "g", none, none, none, none⟩ "crit" 100
    ⟨some "Main?", ["S1?"], some "addr"⟩ (Or.inl (by simp))
    (List.pairwise_singleton _ _) (by decide)

theorem fieldFold_pairwise :
    ∀ (vals kept : List String),
      List.Pairwise (fun a b => isRefinementOf b a = false) kept →
      List.Pairwise (fun a b => isRefinementOf b a = false)
        (vals.foldl mergeFieldStep kept) := by
  intro vals
  induction vals with
  | nil => intro kept h; exact h
  | cons v rest ih =>
    intro kept h
    rw [List.foldl_cons]
    apply ih
    refine List.pairwise_append.mpr
      ⟨List.Pairwise.filter _ h, List.pairwise_singleton _ _, ?_⟩
    intro a ha b hb
    rw [List.mem_singleton] at hb
    subst hb
    have := (List.mem_filter.mp ha).2
    simpa using this

theorem fieldFold_sublist :
    ∀ (vals acc kept : List String), kept.Sublist acc →
      (vals.foldl mergeFieldStep kept).Sublist (acc ++ vals) := by
  intro vals
  induction vals with
  | nil => intro acc kept h; simpa using h
  | cons v rest ih =>
    intro acc kept h
    rw [List.foldl_cons]
    have hstep : (mergeFieldStep kept v).Sublist (acc ++ [v]) :=
      List.Sublist.append ((List.filter_sublist _).trans h)
        (List.Sublist.refl [v])
    have := ih (acc ++ [v]) (mergeFieldStep kept v) hstep
    rwa [List.append_assoc, List.singleton_append] at this

/-- C6: per field, when two values are present the Field Extraction Merger
keeps only the later value exactly when the normalized text of the later
value contains that of the earlier one (the refinement heuristic), and otherwise joins the
two in segment order with the delimiter; in general, the kept values are a
subsequence of the input in segment order in which no later value contains an
earlier one. -/
theorem field_merger_refinement_rule :
    (∀ u v : String,
        mergeFieldVals [u, v] =
          some (if isRefinementOf v u then v else u ++ fieldDelim ++ v)) ∧
      ∀ vals : List String,
        List.Pairwise (fun a b => isRefinementOf b a = false)
            (fieldKept vals) ∧
          (fieldKept vals).Sublist vals := by
  constructor
  · intro u v
    cases h : isRefinementOf v u with
    | true =>
      simp only [mergeFieldVals, fieldKept, List.foldl_cons, List.foldl_nil,
        mergeFieldStep, List.filter, h, if_true]
      rfl
    | false =>
      simp only [mergeFieldVals, fieldKept, List.foldl_cons, List.foldl_nil,
        mergeFieldStep, List.filter, h, if_true]
      rfl
  · intro vals
    refine ⟨fieldFold_pairwise vals [] List.Pairwise.nil, ?_⟩
    simpa using fieldFold_sublist vals [] [] (List.Sublist.refl [])

/-- C1: the two boundary declarations of the serialized analysis result
disagree about the reviewer_questions key: the transport interface of the API
client declares it an array of strings, while the current UI component
declares it the record with keys main_question, sub_questions and
addressed_questions that the specification prescribes — so the claimed record
shape is contradicted by the transport declaration of the repository itself. -/
theorem reviewer_questions_shape_mismatch :
    apiPaperAnalysisFields.lookup "reviewer_questions" =
        some (TsType.array .string) ∧
      componentAnalysisFields.lookup "reviewer_questions" =
        some (TsType.object reviewerQuestionsFields) ∧
      TsType.array .string ≠ TsType.object reviewerQuestionsFields := by
  refine ⟨rfl, rfl, fun h => ?_⟩
  exact TsType.noConfusion h

/-- C2: the result of a run carries a non-empty error exactly when the run is a
total failure (every segment/capability call failed), and in that case every
other result field is absent. -/
theorem error_iff_total_failure (cap : Nat) (o : SegmentOutcomes) :
    ((∃ e, (runAnalysis cap o).error = some e ∧ e ≠ "") ↔
        totalFailure o = true) ∧
      (totalFailure o = true →
        (runAnalysis cap o).goal = none ∧
          (runAnalysis cap o).hypothesis = none ∧
          (runAnalysis cap o).methods = none ∧
          (runAnalysis cap o).results = none ∧
          (runAnalysis cap o).conclusion = none ∧
          (runAnalysis cap o).critique = none ∧
          (runAnalysis cap o).reviewer_questions = none) := by
  cases h : totalFailure o with
  | true =>
    refine ⟨⟨fun _ => rfl, fun _ => ⟨totalFailureMsg, ?_, ?_⟩⟩, fun _ => ?_⟩
    · simp [runAnalysis, h]
    · decide
    · simp [runAnalysis, h]
  | false =>
    refine ⟨⟨?_, fun hh => absurd hh (by simp [h])⟩,
      fun hh => absurd hh (by simp [h])⟩
    rintro ⟨e, he, _⟩
    rw [show (runAnalysis cap o).error = none from by simp [runAnalysis, h]]
      at he
    exact Option.noConfusion he

/-- Witness for C2 at the all-failed outcome of a two-segment run. -/
theorem error_iff_total_failure_witness :
    (runAnalysis 100 ⟨[none, none], [none, none], [none, none]⟩).goal = none ∧
      (runAnalysis 100 ⟨[none, none], [none, none], [none, none]⟩).hypothesis
        = none ∧
      (runAnalysis 100 ⟨[none, none], [none, none], [none, none]⟩).methods
        = none ∧
      (runAnalysis 100 ⟨[none, none], [none, none], [none, none]⟩).results
        = none ∧
      (runAnalysis 100 ⟨[none, none], [none, none], [none, none]⟩).conclusion
        = none ∧
      (runAnalysis 100 ⟨[none, none], [none, none], [none, none]⟩).critique
        = none ∧
      (runAnalysis 100
        ⟨[none, none], [none, none], [none, none]⟩).reviewer_questions
        = none :=
  (error_iff_total_failure 100
    ⟨[none, none], [none, none], [none, none]⟩).2 rfl

theorem step_not_failed (o : SegmentOutcomes) (h : totalFailure o = false) :
    ∀ a b, Step o a b → b ≠ RunState.Failed := by
  intro a b hstep
  cases hstep with
  | dispatch => exact fun hh => RunState.noConfusion hh
  | fail hf => rw [h] at hf; exact absurd hf (by simp)
  | settle _ => exact fun hh => RunState.noConfusion hh
  | complete => exact fun hh => RunState.noConfusion hh

/-- C8: the orchestrator state machine reaches the terminal Failed state if
and only if every segment failed for every one of the three capabilities; with
at least one successful segment/capability call, Failed is unreachable. -/
theorem failed_reachable_iff_total_failure (o : SegmentOutcomes) :
    Relation.ReflTransGen (Step o) RunState.Pending RunState.Failed ↔
      totalFailure o = true := by
  constructor
  · intro hreach
    cases h : totalFailure o with
    | true => rfl
    | false =>
      exfalso
      rcases Relation.ReflTransGen.cases_tail hreach with heq | ⟨c, _, hstep⟩
      · exact RunState.noConfusion heq
      · exact step_not_failed o h c _ hstep rfl
  · intro h
    exact Relation.ReflTransGen.head Step.dispatch
      (Relation.ReflTransGen.single (Step.fail h))

/-- Witness for C8: the all-failed single-segment run reaches Failed. -/
theorem failed_reachable_iff_total_failure_witness :
    Relation.ReflTransGen (Step ⟨[none], [none], [none]⟩)
      RunState.Pending RunState.Failed :=
  (failed_reachable_iff_total_failure ⟨[none], [none], [none]⟩).mpr rfl

/-- C9: uploadPaper is total at its promise interface: it resolves on every
transport outcome — with the response data on success, and otherwise with a
result whose error field holds a non-empty string (even when the HTTP error
detail is missing or empty, thanks to the JavaScript-falsy fallback). -/
theorem uploadPaper_total_error (t : TransportOutcome) :
    (∀ d, t = TransportOutcome.success d → uploadPaper t = d) ∧
      ((∀ d, t ≠ TransportOutcome.success d) →
        ∃ e, (uploadPaper t).error = some e ∧ e ≠ "") := by
  cases t with
  | success d =>
    exact ⟨fun d' h => by cases h; rfl, fun h => absurd rfl (h d)⟩
  | httpError detail =>
    refine ⟨fun _ h => TransportOutcome.noConfusion h,
      fun _ => ⟨jsOrElse detail uploadFailDetailMsg, rfl, ?_⟩⟩
    cases detail with
    | none => decide
    | some s =>
      by_cases hs : s = ""
      · subst hs; decide
      · simp [jsOrElse, hs]
  | networkFailure =>
    exact ⟨fun _ h => TransportOutcome.noConfusion h,
      fun _ => ⟨uploadFailRetryMsg, rfl, by decide⟩⟩

/-- Witness for C9 at the HTTP-error outcome whose detail is the empty string
(JavaScript-falsy), where the fallback message is used. -/
theorem uploadPaper_total_error_witness :
    ∃ e, (uploadPaper (TransportOutcome.httpError (some ""))).error =
        some e ∧ e ≠ "" :=
  (uploadPaper_total_error (TransportOutcome.httpError (some ""))).2
    (fun _ h => TransportOutcome.noConfusion h)

/-- C10: after every completed invocation of handleFileUpload the page state
has isLoading false and never holds a non-null error together with a non-null
analysis result. -/
theorem handleFileUpload_postcondition (s : UIState) (u : UploadOutcome) :
    (handleFileUpload s u).isLoading = false ∧
      ((handleFileUpload s u).error = none ∨
        (handleFileUpload s u).analysisResult = none) := by
  cases u with
  | resolved r =>
    cases h : jsTruthy r.error with
    | true => simp [handleFileUpload, h]
    | false => simp [handleFileUpload, h]
  | rejected => simp [handleFileUpload]

end RPCA
